import Mathlib

/-!
Shallow embedding of the NWA audio decoder from
src/src/dec/real_live/nwa_audio_decoder.cc.

Bytes are modelled as natural numbers (values below 256 in well-formed
inputs); byte buffers as lists; machine-integer wraparound is explicit
(mod 2^16 for the s16 predictor, mod 2^32 / 2^64 for unsigned size
subtraction).  Fallible stream reads return Option; the decoder entry
points return Except over the error taxonomy of err.h.
-/

namespace ArcUnpacker

/-- Header of an NWA file, as read by NwaAudioDecoder::decode_impl.
Field names follow the C++ struct NwaHeader. -/
structure NwaHeader where
  channel_count : Nat
  bits_per_sample : Nat
  sample_rate : Nat
  compression_level : Int
  use_run_length : Bool
  block_count : Nat
  uncompressed_size : Nat
  compressed_size : Nat
  sample_count : Nat
  block_size : Nat
  rest_size : Nat
deriving DecidableEq, Repr

/-- Error taxonomy of the decoder: err::NotSupportedError,
err::CorruptDataError, err::BadDataSizeError, and the EofError raised by
out-of-bounds stream or bitstream reads. -/
inductive DecodeError where
  | unsupportedFeature
  | corruptData
  | sizeMismatch
  | boundsFailure
deriving DecidableEq, Repr

/-- Read one byte (io::BaseByteStream::read of a u8): fails past the end. -/
def readU8 (buffer : List Nat) (pos : Nat) : Option (Nat × Nat) :=
  if pos + 1 ≤ buffer.length then some (buffer.getD pos 0, pos + 1) else none

/-- Read a little-endian 16-bit value (read_le of a u16): fails past the end. -/
def readU16le (buffer : List Nat) (pos : Nat) : Option (Nat × Nat) :=
  if pos + 2 ≤ buffer.length then
    some (buffer.getD pos 0 + 256 * buffer.getD (pos + 1) 0, pos + 2)
  else none

/-- Read a little-endian 32-bit value (read_le of a u32): fails past the end. -/
def readU32le (buffer : List Nat) (pos : Nat) : Option (Nat × Nat) :=
  if pos + 4 ≤ buffer.length then
    some (buffer.getD pos 0 + 256 * buffer.getD (pos + 1) 0
      + 65536 * buffer.getD (pos + 2) 0
      + 16777216 * buffer.getD (pos + 3) 0, pos + 4)
  else none

/-- static_cast of a u32 bit pattern to a signed 32-bit integer. -/
def asS32 (v : Nat) : Int :=
  if v < 2 ^ 31 then (v : Int) else (v : Int) - 2 ^ 32

/-- Wrapping subtraction of machine-unsigned values of width w bits
(w = 32 for u32 offsets, w = 64 for size_t): a - b mod 2^w. -/
def wsub (w a b : Nat) : Nat := (a % 2 ^ w + (2 ^ w - b % 2 ^ w)) % 2 ^ w

/-- Modelled from the spec: io/lsb_bit_stream.h is not among the provided
sources.  Bit p of the stream is bit (p mod 8) of byte (p / 8) — bits are
drawn from each byte starting at its low-order bit. -/
def bitAt (data : List Nat) (p : Nat) : Nat :=
  (data.getD (p / 8) 0 >>> (p % 8)) % 2

/-- Modelled from the spec: value of n bits starting at bit position pos,
assembled least-significant-bit first (the first bit read becomes the
low-order bit of the result). -/
def bitsVal (data : List Nat) : Nat → Nat → Nat
  | _, 0 => 0
  | pos, n + 1 => bitAt data pos + 2 * bitsVal data (pos + 1) n

/-- Modelled from the spec: io::LsbBitStream::read(n).  Returns the n-bit
value and the new bit cursor; reading past the end of the span fails
rather than fabricating bits. -/
def readBits (data : List Nat) (pos n : Nat) : Option (Nat × Nat) :=
  if pos + n ≤ 8 * data.length then some (bitsVal data pos n, pos + n)
  else none

/-- Per-block decoding state of decode_block: the two s16 predictors d[0]
and d[1] (kept as bit patterns below 2^16), the current channel index, the
pending run-length counter, and the bit cursor of the block's bitstream. -/
structure BlockState where
  d0 : Nat
  d1 : Nat
  chan : Nat
  runLength : Nat
  bitPos : Nat
deriving DecidableEq, Repr

/-- d[c] of the C++ predictor array. -/
def getD (st : BlockState) (c : Nat) : Nat :=
  if c = 0 then st.d0 else st.d1

/-- Assignment d[c] := v of the C++ predictor array. -/
def setD (st : BlockState) (c : Nat) (v : Nat) : BlockState :=
  if c = 0 then { st with d0 := v } else { st with d1 := v }

/-- The sign-magnitude predictor update of decode_block: mask1 selects the
top bit of the residual field b, mask2 its remaining bits; the shifted
magnitude is added to or subtracted from the s16 predictor, which stores
the result modulo 2^16. -/
def signMagUpdate (d b bits shift : Nat) : Nat :=
  let mask1 := 1 <<< (bits - 1)
  let mask2 := (1 <<< (bits - 1)) - 1
  if b &&& mask1 ≠ 0 then
    (d + (65536 - ((b &&& mask2) <<< shift) % 65536)) % 65536
  else
    (d + ((b &&& mask2) <<< shift)) % 65536

/-- One iteration of the per-sample loop of decode_block, up to and
including the predictor/run-length update (the emission of d[channel] and
the channel toggle happen in decodeLoop).  Returns none exactly when a
bitstream read runs past the end. -/
def decodeSampleStep (h : NwaHeader) (data : List Nat) (st : BlockState) :
    Option BlockState :=
  if st.runLength ≠ 0 then
    some { st with runLength := st.runLength - 1 }
  else do
    let (ty, p1) ← readBits data st.bitPos 3
    if ty = 7 then do
      let (flag, p2) ← readBits data p1 1
      if flag ≠ 0 then
        some (setD { st with bitPos := p2 } st.chan 0)
      else
        let bits : Int :=
          if h.compression_level < 3 then 8 - h.compression_level else 8
        let shift : Int :=
          if h.compression_level < 3 then 9 + h.compression_level else 9
        do
          let (b, p3) ← readBits data p2 bits.toNat
          some (setD { st with bitPos := p3 } st.chan
            (signMagUpdate (getD st st.chan) b bits.toNat shift.toNat))
    else if 0 < ty then
      let bits : Int :=
        if 3 ≤ h.compression_level then 3 + h.compression_level
        else 5 - h.compression_level
      let shift : Int :=
        if 3 ≤ h.compression_level then 1 + (ty : Int)
        else 2 + (ty : Int) + h.compression_level
      do
        let (b, p2) ← readBits data p1 bits.toNat
        some (setD { st with bitPos := p2 } st.chan
          (signMagUpdate (getD st st.chan) b bits.toNat shift.toNat))
    else if h.use_run_length then do
      let (r1, p2) ← readBits data p1 1
      if r1 = 1 then do
        let (r2, p3) ← readBits data p2 2
        if r2 = 3 then do
          let (r3, p4) ← readBits data p3 8
          some { st with runLength := r3, bitPos := p4 }
        else some { st with runLength := r2, bitPos := p3 }
      else some { st with runLength := r1, bitPos := p2 }
    else
      some { st with bitPos := p1 }

/-- Bytes emitted for one sample: write of a u8 emits the low byte of the
predictor, write_le of a u16 emits its two bytes little-endian. -/
def sampleBytes (h : NwaHeader) (d : Nat) : List Nat :=
  if h.bits_per_sample = 8 then [d % 256] else [d % 256, d / 256 % 256]

/-- The per-sample loop of decode_block: for each of the remaining samples
run decodeSampleStep, emit d[current_channel], and toggle the channel
index when channel_count == 2. -/
def decodeLoop (h : NwaHeader) (data : List Nat) :
    Nat → BlockState → Option (List Nat)
  | 0, _ => some []
  | n + 1, st => do
    let st2 ← decodeSampleStep h data st
    let rest ← decodeLoop h data n
      { st2 with chan := if h.channel_count = 2 then st2.chan ^^^ 1 else st2.chan }
    some (sampleBytes h (getD st2 st2.chan) ++ rest)

/-- Read one raw initial sample of decode_block: a u8 when
bits_per_sample == 8, else a little-endian u16. -/
def readRawSample (h : NwaHeader) (buffer : List Nat) (pos : Nat) :
    Option (Nat × Nat) :=
  if h.bits_per_sample = 8 then readU8 buffer pos else readU16le buffer pos

/-- The loop seeding the predictor array: one raw sample per channel. -/
def readInitSamples (h : NwaHeader) (buffer : List Nat) :
    Nat → Nat → Option (List Nat × Nat)
  | pos, 0 => some ([], pos)
  | pos, k + 1 => do
    let (v, p) ← readRawSample h buffer pos
    let (vs, p2) ← readInitSamples h buffer p k
    some (v :: vs, p2)

/-- The input_size computation of decode_block: offsets.at(i+1) - offsets.at(i)
in u32 arithmetic for all but the last block, else buffer size minus
offsets.at(i) in size_t arithmetic; out-of-range table access fails. -/
def blockInputSize (current_block : Nat) (buffer offsets : List Nat)
    (off : Nat) : Option Nat :=
  if current_block ≠ offsets.length - 1 then do
    let nxt ← offsets.get? (current_block + 1)
    some (wsub 32 nxt off)
  else
    some (wsub 64 buffer.length off)

/-- The body of decode_block after input_size is known: seek to the block
offset, seed one raw sample per channel into the predictors, wrap the
remaining input_size - bytes_per_sample*channel_count bytes in the LSB
bitstream, and run the per-sample loop with channel index and run-length
freshly zeroed. -/
def blockBody (h : NwaHeader) (buffer : List Nat)
    (off input_size output_size : Nat) : Option (List Nat) :=
  if off ≤ buffer.length then do
    let (ds, p) ← readInitSamples h buffer off h.channel_count
    let n := wsub 64 input_size (h.bits_per_sample >>> 3 * h.channel_count)
    if p + n ≤ buffer.length then
      decodeLoop h ((buffer.drop p).take n) output_size
        ⟨ds.getD 0 0, ds.getD 1 0, 0, 0, 0⟩
    else none
  else none

/-- decode_block of nwa_audio_decoder.cc.  current_block indexes the block;
buffer is the whole input file (the MemoryStream decode_impl built);
offsets is the block-offset table.  Seeks and reads past the end of the
buffer fail, as does bitstream exhaustion. -/
def decode_block (h : NwaHeader) (current_block : Nat) (buffer : List Nat)
    (offsets : List Nat) : Option (List Nat) := do
  let bytes_per_sample := h.bits_per_sample >>> 3
  let current_block_size :=
    if current_block ≠ h.block_count - 1 then h.block_size * bytes_per_sample
    else h.rest_size * bytes_per_sample
  let output_size := current_block_size / bytes_per_sample
  let off ← offsets.get? current_block
  let input_size ← blockInputSize current_block buffer offsets off
  blockBody h buffer off input_size output_size

/-- The offset-table read loop of read_compressed_samples: block_count
little-endian u32 values. -/
def readOffsets (buffer : List Nat) : Nat → Nat → Option (List Nat × Nat)
  | pos, 0 => some ([], pos)
  | pos, k + 1 => do
    let (v, p) ← readU32le buffer pos
    let (vs, p2) ← readOffsets buffer p k
    some (v :: vs, p2)

/-- The block loop of read_compressed_samples: concatenation of the
decoded blocks 0 .. n-1 in ascending index order. -/
def decodeBlocks (h : NwaHeader) (buffer : List Nat) (offsets : List Nat) :
    Nat → Option (List Nat)
  | 0 => some []
  | n + 1 => do
    let prev ← decodeBlocks h buffer offsets n
    let blk ← decode_block h n buffer offsets
    some (prev ++ blk)

/-- Lift an out-of-bounds stream read into the decoder error type. -/
def orBounds : Option α → Except DecodeError α
  | some a => .ok a
  | none => .error .boundsFailure

/-- read_compressed_samples of nwa_audio_decoder.cc: the eager header
validation chain, then the 4-byte skip, the offset table, and the block
loop.  pos is the stream position after the 40-byte header. -/
def read_compressed_samples (buffer : List Nat) (pos : Nat) (h : NwaHeader) :
    Except DecodeError (List Nat) :=
  if h.compression_level < 0 ∨ 5 < h.compression_level then
    .error .unsupportedFeature
  else if h.channel_count ≠ 1 ∧ h.channel_count ≠ 2 then
    .error .unsupportedFeature
  else if h.bits_per_sample ≠ 8 ∧ h.bits_per_sample ≠ 16 then
    .error .unsupportedFeature
  else if h.block_count = 0 then
    .error .corruptData
  else if h.compressed_size = 0 then
    .error .corruptData
  else if h.uncompressed_size ≠ h.sample_count * h.bits_per_sample / 8 then
    .error .sizeMismatch
  else if h.sample_count ≠ (h.block_count - 1) * h.block_size + h.rest_size then
    .error .corruptData
  else if pos + 4 ≤ buffer.length then do
    let (offsets, _) ← orBounds (readOffsets buffer (pos + 4) h.block_count)
    orBounds (decodeBlocks h buffer offsets h.block_count)
  else .error .boundsFailure

/-- read_uncompressed_samples of nwa_audio_decoder.cc: read exactly
uncompressed_size bytes from the current position, verbatim. -/
def read_uncompressed_samples (buffer : List Nat) (pos : Nat) (h : NwaHeader) :
    Except DecodeError (List Nat) :=
  if pos + h.uncompressed_size ≤ buffer.length then
    .ok ((buffer.drop pos).take h.uncompressed_size)
  else .error .boundsFailure

/-- The res::Audio resource returned by decode_impl. -/
structure Audio where
  channel_count : Nat
  bits_per_sample : Nat
  sample_rate : Nat
  samples : List Nat
deriving DecidableEq, Repr

/-- An io::File stream: the underlying bytes plus the read cursor. -/
structure ByteStream where
  data : List Nat
  pos : Nat
deriving DecidableEq, Repr

/-- io::BaseByteStream::seek: absolute, fails past the end. -/
def streamSeek (s : ByteStream) (p : Nat) : Option ByteStream :=
  if p ≤ s.data.length then some { s with pos := p } else none

/-- io::BaseByteStream::read_to_eof: the bytes from the cursor to the end. -/
def read_to_eof (s : ByteStream) : List Nat × ByteStream :=
  (s.data.drop s.pos, { s with pos := s.data.length })

/-- The 11-field little-endian header parse at the top of decode_impl.
Returns the header and the position after it (40 on success). -/
def parseHeader (buffer : List Nat) : Option (NwaHeader × Nat) := do
  let (cc, p1) ← readU16le buffer 0
  let (bps, p2) ← readU16le buffer p1
  let (sr, p3) ← readU32le buffer p2
  let (clvRaw, p4) ← readU32le buffer p3
  let (url, p5) ← readU32le buffer p4
  let (bc, p6) ← readU32le buffer p5
  let (us, p7) ← readU32le buffer p6
  let (cs, p8) ← readU32le buffer p7
  let (sc, p9) ← readU32le buffer p8
  let (bsz, p10) ← readU32le buffer p9
  let (rs, p11) ← readU32le buffer p10
  some ({ channel_count := cc, bits_per_sample := bps, sample_rate := sr,
          compression_level := asS32 clvRaw, use_run_length := url != 0,
          block_count := bc, uncompressed_size := us, compressed_size := cs,
          sample_count := sc, block_size := bsz, rest_size := rs }, p11)

/-- NwaAudioDecoder::decode_impl: rewind the file, buffer it whole, parse
the header, then take the uncompressed path when compression_level == -1,
else the compressed path. -/
def decode_impl (input_file : ByteStream) : Except DecodeError Audio :=
  let buffer :=
    match streamSeek input_file 0 with
    | some s => (read_to_eof s).1
    | none => []
  match parseHeader buffer with
  | none => .error .boundsFailure
  | some (h, pos) => do
    let samples ←
      if h.compression_level = -1 then read_uncompressed_samples buffer pos h
      else read_compressed_samples buffer pos h
    .ok { channel_count := h.channel_count, bits_per_sample := h.bits_per_sample,
          sample_rate := h.sample_rate, samples := samples }

/-! Spec-side formulations (from the spec's words, for comparison with the
translated code). -/

/-- Spec formulation: residual field width for type codes 1..6 at validated
compression level l — 3 + level when level ≥ 3, else 5 - level. -/
def specResidualWidth (l : Nat) : Nat := if 3 ≤ l then 3 + l else 5 - l

/-- Spec formulation: residual shift for type codes 1..6 — 1 + type when
level ≥ 3, else 2 + type + level. -/
def specResidualShift (l ty : Nat) : Nat := if 3 ≤ l then 1 + ty else 2 + ty + l

/-- Spec formulation: residual field width for type code 7 — bits starts
at 8 and decreases by the level when level < 3. -/
def specWidth7 (l : Nat) : Nat := if l < 3 then 8 - l else 8

/-- Spec formulation: residual shift for type code 7 — shift starts at 9
and increases by the level when level < 3. -/
def specShift7 (l : Nat) : Nat := if l < 3 then 9 + l else 9

/-- Spec formulation of the sign-magnitude rule: the top bit of the
width-wide field selects subtraction, the remaining width-1 bits are the
magnitude, shifted left by shift; the 16-bit predictor wraps modulo 2^16. -/
def specSignMagApply (d b width shift : Nat) : Nat :=
  if b / 2 ^ (width - 1) % 2 = 1 then
    (d + (65536 - b % 2 ^ (width - 1) * 2 ^ shift % 65536)) % 65536
  else
    (d + b % 2 ^ (width - 1) * 2 ^ shift) % 65536

/-- Spec formulation: the raw initial predictor sample at position p — an
unsigned byte when bits_per_sample is 8, else a little-endian unsigned
16-bit value. -/
def specRawSample (h : NwaHeader) (buffer : List Nat) (p : Nat) : Nat :=
  if h.bits_per_sample = 8 then buffer.getD p 0
  else buffer.getD p 0 + 256 * buffer.getD (p + 1) 0

/-! Concrete inputs used by the witnesses below. -/

/-- A stored-mode (compression_level == -1) file whose other header fields
would all fail compressed-path validation (channel_count 3,
bits_per_sample 12, block_count 0, compressed_size 0, inconsistent
sample_count), followed by four payload bytes. -/
def pfFile : List Nat :=
  [3, 0, 12, 0, 34, 86, 0, 0, 255, 255, 255, 255, 0, 0, 0, 0,
   0, 0, 0, 0, 3, 0, 0, 0, 0, 0, 0, 0, 7, 0, 0, 0,
   0, 0, 0, 0, 0, 0, 0, 0,
   7, 8, 9, 10]

/-- The header encoded by the first 40 bytes of pfFile. -/
def pfHdr : NwaHeader :=
  { channel_count := 3, bits_per_sample := 12, sample_rate := 22050,
    compression_level := -1, use_run_length := false, block_count := 0,
    uncompressed_size := 3, compressed_size := 0, sample_count := 7,
    block_size := 0, rest_size := 0 }

/-- A minimal valid compressed header: mono, 8 bits per sample, level 0,
one block of one sample. -/
def cHdr : NwaHeader :=
  { channel_count := 1, bits_per_sample := 8, sample_rate := 22050,
    compression_level := 0, use_run_length := false, block_count := 1,
    uncompressed_size := 1, compressed_size := 1, sample_count := 1,
    block_size := 0, rest_size := 1 }

/-- A compressed payload for cHdr as read_compressed_samples sees it at
position 0: 4 reserved bytes, one u32 offset (8), the block's raw initial
sample 42, and one bitstream byte encoding type code 0. -/
def cBuf : List Nat := [0, 0, 0, 0, 8, 0, 0, 0, 42, 0]

/-- A header with compression_level 6, outside the supported range. -/
def vHdr6 : NwaHeader :=
  { channel_count := 1, bits_per_sample := 8, sample_rate := 22050,
    compression_level := 6, use_run_length := false, block_count := 1,
    uncompressed_size := 1, compressed_size := 1, sample_count := 1,
    block_size := 0, rest_size := 1 }

/-! Helper lemmas. -/

theorem streamSeek_zero (s : ByteStream) :
    streamSeek s 0 = some { s with pos := 0 } :=
  if_pos (Nat.zero_le _)

theorem decode_impl_rewinds (s : ByteStream) :
    decode_impl s = decode_impl { data := s.data, pos := 0 } := by
  simp only [decode_impl, streamSeek_zero, read_to_eof]

/-- C10: the result of decode does not depend on the position of the input
stream's cursor at call time — decode first rewinds the input to offset 0
and buffers the entire content, so for any two initial cursor positions
over the same underlying bytes the decoded output (or error) is
identical. -/
theorem nwa_decode_cursor_independent (data : List Nat) (p1 p2 : Nat) :
    decode_impl { data := data, pos := p1 } =
      decode_impl { data := data, pos := p2 } := by
  rw [decode_impl_rewinds { data := data, pos := p1 },
    decode_impl_rewinds { data := data, pos := p2 }]

/-- C8: decoding is deterministic — two invocations of decode on inputs
with identical byte content return identical results: the same Audio
(channel_count, bits_per_sample, sample_rate, samples) on success, or the
same error on failure. -/
theorem nwa_decode_deterministic (s1 s2 : ByteStream)
    (hdata : s1.data = s2.data) : decode_impl s1 = decode_impl s2 := by
  rw [decode_impl_rewinds s1, decode_impl_rewinds s2, hdata]

theorem nwa_decode_deterministic_witness :
    (ByteStream.mk [1, 2, 3] 0).data = (ByteStream.mk [1, 2, 3] 7).data ∧
      decode_impl (ByteStream.mk [1, 2, 3] 0) =
        decode_impl (ByteStream.mk [1, 2, 3] 7) :=
  ⟨rfl, nwa_decode_deterministic (ByteStream.mk [1, 2, 3] 0)
    (ByteStream.mk [1, 2, 3] 7) rfl⟩

/-- C5: for every input whose header declares compression_level == -1,
decode returns exactly the next uncompressed_size bytes after the 40-byte
header verbatim, regardless of their content, performing none of the
compressed-path validation checks on the other header fields. -/
theorem nwa_uncompressed_passthrough (s : ByteStream) (h : NwaHeader)
    (hparse : parseHeader s.data = some (h, 40))
    (hlvl : h.compression_level = -1)
    (hsize : 40 + h.uncompressed_size ≤ s.data.length) :
    decode_impl s = .ok
      { channel_count := h.channel_count
        bits_per_sample := h.bits_per_sample
        sample_rate := h.sample_rate
        samples := (s.data.drop 40).take h.uncompressed_size } := by
  simp only [decode_impl, streamSeek_zero, read_to_eof, List.drop_zero, hparse,
    hlvl, if_pos, read_uncompressed_samples]
  rw [if_pos hsize]
  rfl

theorem nwa_uncompressed_passthrough_witness :
    parseHeader (ByteStream.mk pfFile 0).data = some (pfHdr, 40) ∧
      pfHdr.compression_level = -1 ∧
      40 + pfHdr.uncompressed_size ≤ (ByteStream.mk pfFile 0).data.length ∧
      decode_impl (ByteStream.mk pfFile 0) = .ok
        { channel_count := pfHdr.channel_count
          bits_per_sample := pfHdr.bits_per_sample
          sample_rate := pfHdr.sample_rate
          samples := ((ByteStream.mk pfFile 0).data.drop 40).take pfHdr.uncompressed_size } :=
  ⟨by decide, by decide, by decide,
    nwa_uncompressed_passthrough (ByteStream.mk pfFile 0) pfHdr
      (by decide) (by decide) (by decide)⟩

/-- C2: on the compressed path, header validation runs eagerly in a fixed
order, raising on the first violation: compression_level in [0,5] else
UnsupportedFeature; channel_count in {1,2} else UnsupportedFeature;
bits_per_sample in {8,16} else UnsupportedFeature; block_count nonzero
else CorruptData; compressed_size nonzero else CorruptData;
uncompressed_size == sample_count*bits_per_sample/8 else SizeMismatch;
sample_count == (block_count-1)*block_size + rest_size else CorruptData;
and on any such failure the decode call returns the error, hence no
partial PCM data. -/
theorem nwa_header_validation_order (buffer : List Nat) (pos : Nat)
    (h : NwaHeader) :
    (h.compression_level < 0 ∨ 5 < h.compression_level →
      read_compressed_samples buffer pos h = .error .unsupportedFeature) ∧
    (¬(h.compression_level < 0 ∨ 5 < h.compression_level) →
      h.channel_count ≠ 1 ∧ h.channel_count ≠ 2 →
      read_compressed_samples buffer pos h = .error .unsupportedFeature) ∧
    (¬(h.compression_level < 0 ∨ 5 < h.compression_level) →
      ¬(h.channel_count ≠ 1 ∧ h.channel_count ≠ 2) →
      h.bits_per_sample ≠ 8 ∧ h.bits_per_sample ≠ 16 →
      read_compressed_samples buffer pos h = .error .unsupportedFeature) ∧
    (¬(h.compression_level < 0 ∨ 5 < h.compression_level) →
      ¬(h.channel_count ≠ 1 ∧ h.channel_count ≠ 2) →
      ¬(h.bits_per_sample ≠ 8 ∧ h.bits_per_sample ≠ 16) →
      h.block_count = 0 →
      read_compressed_samples buffer pos h = .error .corruptData) ∧
    (¬(h.compression_level < 0 ∨ 5 < h.compression_level) →
      ¬(h.channel_count ≠ 1 ∧ h.channel_count ≠ 2) →
      ¬(h.bits_per_sample ≠ 8 ∧ h.bits_per_sample ≠ 16) →
      h.block_count ≠ 0 → h.compressed_size = 0 →
      read_compressed_samples buffer pos h = .error .corruptData) ∧
    (¬(h.compression_level < 0 ∨ 5 < h.compression_level) →
      ¬(h.channel_count ≠ 1 ∧ h.channel_count ≠ 2) →
      ¬(h.bits_per_sample ≠ 8 ∧ h.bits_per_sample ≠ 16) →
      h.block_count ≠ 0 → h.compressed_size ≠ 0 →
      h.uncompressed_size ≠ h.sample_count * h.bits_per_sample / 8 →
      read_compressed_samples buffer pos h = .error .sizeMismatch) ∧
    (¬(h.compression_level < 0 ∨ 5 < h.compression_level) →
      ¬(h.channel_count ≠ 1 ∧ h.channel_count ≠ 2) →
      ¬(h.bits_per_sample ≠ 8 ∧ h.bits_per_sample ≠ 16) →
      h.block_count ≠ 0 → h.compressed_size ≠ 0 →
      h.uncompressed_size = h.sample_count * h.bits_per_sample / 8 →
      h.sample_count ≠ (h.block_count - 1) * h.block_size + h.rest_size →
      read_compressed_samples buffer pos h = .error .corruptData) ∧
    (∀ (s : ByteStream) (e : DecodeError), s.data = buffer →
      parseHeader buffer = some (h, pos) → h.compression_level ≠ -1 →
      read_compressed_samples buffer pos h = .error e →
      decode_impl s = .error e) := by
  refine ⟨?_, ?_, ?_, ?_, ?_, ?_, ?_, ?_⟩
  · intro h1
    rw [read_compressed_samples, if_pos h1]
  · intro h1 h2
    rw [read_compressed_samples, if_neg h1, if_pos h2]
  · intro h1 h2 h3
    rw [read_compressed_samples, if_neg h1, if_neg h2, if_pos h3]
  · intro h1 h2 h3 h4
    rw [read_compressed_samples, if_neg h1, if_neg h2, if_neg h3, if_pos h4]
  · intro h1 h2 h3 h4 h5
    rw [read_compressed_samples, if_neg h1, if_neg h2, if_neg h3, if_neg h4,
      if_pos h5]
  · intro h1 h2 h3 h4 h5 h6
    rw [read_compressed_samples, if_neg h1, if_neg h2, if_neg h3, if_neg h4,
      if_neg h5, if_pos h6]
  · intro h1 h2 h3 h4 h5 h6 h7
    rw [read_compressed_samples, if_neg h1, if_neg h2, if_neg h3, if_neg h4,
      if_neg h5, if_neg (by simp [h6]), if_pos h7]
  · intro s e hdata hparse hlvl hrc
    rw [decode_impl_rewinds s]
    simp only [decode_impl, streamSeek_zero, read_to_eof, List.drop_zero, hdata,
      hparse, hlvl, if_neg, hrc]
    rfl

theorem error_bind {β : Type} (e : DecodeError) (f : α → Except DecodeError β) :
    (Except.error e >>= f) = .error e := rfl

theorem ok_bind {β : Type} (a : α) (f : α → Except DecodeError β) :
    (Except.ok a >>= f : Except DecodeError β) = f a := rfl

theorem sampleBytes_length (h : NwaHeader) (d : Nat) :
    (sampleBytes h d).length = if h.bits_per_sample = 8 then 1 else 2 := by
  unfold sampleBytes
  split <;> rfl

theorem decodeLoop_length (h : NwaHeader) (data : List Nat) :
    ∀ (fuel : Nat) (st : BlockState) (out : List Nat),
      decodeLoop h data fuel st = some out →
      out.length = fuel * (if h.bits_per_sample = 8 then 1 else 2) := by
  intro fuel
  induction fuel with
  | zero =>
    intro st out hout
    simp only [decodeLoop, Option.some.injEq] at hout
    rw [← hout]
    simp
  | succ n ih =>
    intro st out hout
    simp only [decodeLoop, Option.bind_eq_bind, Option.bind_eq_some,
      Option.some.injEq] at hout
    obtain ⟨st2, _, rest, hrest, heq⟩ := hout
    rw [← heq, List.length_append, sampleBytes_length, ih _ _ hrest,
      Nat.succ_mul, Nat.add_comm]

theorem blockBody_length (h : NwaHeader) (buffer : List Nat)
    (off input_size output_size : Nat) (out : List Nat)
    (hout : blockBody h buffer off input_size output_size = some out) :
    out.length = output_size * (if h.bits_per_sample = 8 then 1 else 2) := by
  unfold blockBody at hout
  split at hout
  case isTrue =>
    simp only [Option.bind_eq_bind, Option.bind_eq_some] at hout
    obtain ⟨⟨ds, p⟩, _, hloop⟩ := hout
    split at hloop
    case isTrue => exact decodeLoop_length h _ _ _ _ hloop
    case isFalse => exact absurd hloop (by simp)
  case isFalse => exact absurd hout (by simp)

theorem decode_block_length (h : NwaHeader) (i : Nat) (buffer offsets : List Nat)
    (out : List Nat)
    (hbps : h.bits_per_sample = 8 ∨ h.bits_per_sample = 16)
    (hout : decode_block h i buffer offsets = some out) :
    out.length =
      (if i ≠ h.block_count - 1 then h.block_size else h.rest_size)
        * (h.bits_per_sample >>> 3) := by
  unfold decode_block at hout
  simp only [Option.bind_eq_bind, Option.bind_eq_some] at hout
  obtain ⟨off, _, isz, _, hbody⟩ := hout
  have hlen := blockBody_length h buffer off isz _ out hbody
  rcases hbps with h8 | h16
  · rw [hlen, h8]
    simp only [Nat.shiftRight_eq_div_pow]
    norm_num
  · rw [hlen, h16]
    simp only [Nat.shiftRight_eq_div_pow]
    norm_num
    split <;> omega

theorem decodeBlocks_length_pre (h : NwaHeader) (buffer offsets : List Nat)
    (hbps : h.bits_per_sample = 8 ∨ h.bits_per_sample = 16) :
    ∀ (n : Nat) (out : List Nat), n ≤ h.block_count - 1 →
      decodeBlocks h buffer offsets n = some out →
      out.length = n * (h.block_size * (h.bits_per_sample >>> 3)) := by
  intro n
  induction n with
  | zero =>
    intro out _ hout
    simp only [decodeBlocks, Option.some.injEq] at hout
    rw [← hout]
    simp
  | succ m ih =>
    intro out hle hout
    simp only [decodeBlocks, Option.bind_eq_bind, Option.bind_eq_some,
      Option.some.injEq] at hout
    obtain ⟨prev, hprev, blk, hblk, heq⟩ := hout
    have hm : m ≠ h.block_count - 1 := by omega
    have hb := decode_block_length h m buffer offsets blk hbps hblk
    rw [if_pos hm] at hb
    rw [← heq, List.length_append, ih prev (by omega) hprev, hb, Nat.succ_mul]

/-- C1: for every header that passes compressed-path validation and whose
blocks decode without a bounds failure, the byte length of the decoded
output equals uncompressed_size — each non-final block contributes
block_size*bytes_per_sample bytes, the final one
rest_size*bytes_per_sample, and the validated identities make the
concatenation sum to exactly uncompressed_size. -/
theorem nwa_compressed_output_length (buffer : List Nat) (pos : Nat)
    (h : NwaHeader) (out : List Nat)
    (hok : read_compressed_samples buffer pos h = .ok out) :
    out.length = h.uncompressed_size := by
  unfold read_compressed_samples at hok
  split_ifs at hok with h1 h2 h3 h4 h5 h6 h7 h8
  rcases hro : readOffsets buffer (pos + 4) h.block_count with _ | ⟨offsets, p2⟩
  · rw [hro] at hok
    exact absurd hok (by simp [orBounds, error_bind])
  · rw [hro] at hok
    simp only [orBounds, ok_bind] at hok
    rcases hdb : decodeBlocks h buffer offsets h.block_count with _ | l
    · rw [hdb] at hok
      exact absurd hok (by simp [orBounds])
    · rw [hdb] at hok
      simp only [orBounds, Except.ok.injEq] at hok
      subst hok
      have hbps : h.bits_per_sample = 8 ∨ h.bits_per_sample = 16 := by omega
      obtain ⟨m, hm⟩ : ∃ m, h.block_count = m + 1 := ⟨h.block_count - 1, by omega⟩
      rw [hm] at hdb
      simp only [decodeBlocks, Option.bind_eq_bind, Option.bind_eq_some,
        Option.some.injEq] at hdb
      obtain ⟨prev, hprev, blk, hblk, heq⟩ := hdb
      have hmm : h.block_count - 1 = m := by omega
      have hprevlen := decodeBlocks_length_pre h buffer offsets hbps m prev
        (by omega) hprev
      have hblklen := decode_block_length h m buffer offsets blk hbps hblk
      rw [hmm, if_neg (by simp)] at hblklen
      have hsc : h.sample_count = m * h.block_size + h.rest_size := by
        rw [not_not.mp h7, hmm]
      have hus : h.uncompressed_size = h.sample_count * h.bits_per_sample / 8 :=
        not_not.mp h6
      rw [← heq, List.length_append, hprevlen, hblklen]
      rcases hbps with h8 | h16
      · rw [h8] at hus ⊢
        have h1us : h.uncompressed_size = h.sample_count := by omega
        rw [h1us, hsc]
        simp only [Nat.shiftRight_eq_div_pow]
        norm_num
      · rw [h16] at hus ⊢
        have h2us : h.uncompressed_size = 2 * h.sample_count := by omega
        rw [h2us, hsc]
        simp only [Nat.shiftRight_eq_div_pow]
        norm_num
        ring

theorem nwa_compressed_output_length_witness :
    read_compressed_samples cBuf 0 cHdr = .ok [42] ∧
      ([42] : List Nat).length = cHdr.uncompressed_size :=
  ⟨by rfl, nwa_compressed_output_length cBuf 0 cHdr [42] (by rfl)⟩

theorem nwa_header_validation_order_witness :
    (vHdr6.compression_level < 0 ∨ 5 < vHdr6.compression_level) ∧
      read_compressed_samples [] 0 vHdr6 = .error .unsupportedFeature :=
  ⟨Or.inr (by decide),
    (nwa_header_validation_order [] 0 vHdr6).1 (Or.inr (by decide))⟩

theorem signMagUpdate_eq_spec (d b w s : Nat) :
    signMagUpdate d b w s = specSignMagApply d b w s := by
  unfold signMagUpdate specSignMagApply
  dsimp only
  rw [Nat.one_shiftLeft, Nat.and_pow_two_sub_one_eq_mod, Nat.shiftLeft_eq,
    Nat.and_two_pow]
  by_cases hb : b / 2 ^ (w - 1) % 2 = 1
  · have ht : b.testBit (w - 1) = true := by
      rw [Nat.testBit_to_div_mod]
      exact decide_eq_true hb
    have h2 : (2 : Nat) ^ (w - 1) ≠ 0 := by positivity
    simp [ht, hb, h2]
  · have ht : b.testBit (w - 1) = false := by
      rw [Nat.testBit_to_div_mod]
      exact decide_eq_false hb
    simp [ht, hb]

theorem signMagUpdate_lt (d b w s : Nat) : signMagUpdate d b w s < 65536 := by
  unfold signMagUpdate
  dsimp only
  split <;> exact Nat.mod_lt _ (by norm_num)

theorem toNat_midWidth (l : Nat) :
    (if 3 ≤ (l : Int) then 3 + (l : Int) else 5 - (l : Int)).toNat =
      specResidualWidth l := by
  unfold specResidualWidth
  by_cases h3 : 3 ≤ l
  · rw [if_pos (by exact_mod_cast h3), if_pos h3]
    omega
  · rw [if_neg (by exact_mod_cast h3), if_neg h3]
    omega

theorem toNat_midShift (l ty : Nat) :
    (if 3 ≤ (l : Int) then 1 + (ty : Int) else 2 + (ty : Int) + (l : Int)).toNat =
      specResidualShift l ty := by
  unfold specResidualShift
  by_cases h3 : 3 ≤ l
  · rw [if_pos (by exact_mod_cast h3), if_pos h3]
    omega
  · rw [if_neg (by exact_mod_cast h3), if_neg h3]
    omega

theorem toNat_width7 (l : Nat) :
    (if (l : Int) < 3 then 8 - (l : Int) else 8).toNat = specWidth7 l := by
  unfold specWidth7
  by_cases h3 : l < 3
  · rw [if_pos (by exact_mod_cast h3), if_pos h3]
    omega
  · rw [if_neg (by exact_mod_cast h3), if_neg h3]
    omega

theorem toNat_shift7 (l : Nat) :
    (if (l : Int) < 3 then 9 + (l : Int) else 9).toNat = specShift7 l := by
  unfold specShift7
  by_cases h3 : l < 3
  · rw [if_pos (by exact_mod_cast h3), if_pos h3]
    omega
  · rw [if_neg (by exact_mod_cast h3), if_neg h3]
    omega

/-- C3: for every sample decoded with a 3-bit type code in [1,6] or 7, the
predictor update follows the spec's bits/shift selection and
sign-magnitude rule; for type 7 with the reset bit set, d[channel] becomes
0 and no residual field is read. -/
theorem nwa_residual_update (h : NwaHeader) (data : List Nat) (st : BlockState)
    (l : Nat) (hl : h.compression_level = (l : Int)) (hl5 : l ≤ 5)
    (hrl : st.runLength = 0) :
    (∀ ty p1 b p2, readBits data st.bitPos 3 = some (ty, p1) → 1 ≤ ty → ty ≤ 6 →
      readBits data p1 (specResidualWidth l) = some (b, p2) →
      decodeSampleStep h data st = some (setD { st with bitPos := p2 } st.chan
        (specSignMagApply (getD st st.chan) b (specResidualWidth l)
          (specResidualShift l ty)))) ∧
    (∀ p1 p2 b p3, readBits data st.bitPos 3 = some (7, p1) →
      readBits data p1 1 = some (0, p2) →
      readBits data p2 (specWidth7 l) = some (b, p3) →
      decodeSampleStep h data st = some (setD { st with bitPos := p3 } st.chan
        (specSignMagApply (getD st st.chan) b (specWidth7 l) (specShift7 l)))) ∧
    (∀ p1 flag p2, readBits data st.bitPos 3 = some (7, p1) →
      readBits data p1 1 = some (flag, p2) → flag ≠ 0 →
      decodeSampleStep h data st = some (setD { st with bitPos := p2 } st.chan 0)) := by
  refine ⟨?_, ?_, ?_⟩
  · intro ty p1 b p2 hty hty1 hty6 hb
    unfold decodeSampleStep
    rw [hrl, if_neg (by simp), hty]
    simp only [Option.bind_eq_bind, Option.some_bind]
    rw [if_neg (by omega : ¬ ty = 7), if_pos (by omega : 0 < ty), hl,
      toNat_midWidth, toNat_midShift, hb]
    simp only [Option.some_bind]
    rw [signMagUpdate_eq_spec]
  · intro p1 p2 b p3 h7 hflag hb
    unfold decodeSampleStep
    rw [hrl, if_neg (by simp), h7]
    simp only [Option.bind_eq_bind, Option.some_bind, if_true]
    rw [hflag]
    simp only [Option.some_bind]
    rw [if_neg (by simp), hl, toNat_width7, toNat_shift7, hb]
    simp only [Option.some_bind]
    rw [signMagUpdate_eq_spec]
  · intro p1 flag p2 h7 hflag hfne
    unfold decodeSampleStep
    rw [hrl, if_neg (by simp), h7]
    simp only [Option.bind_eq_bind, Option.some_bind, if_true]
    rw [hflag]
    simp only [Option.some_bind]
    rw [if_pos hfne]

theorem nwa_residual_update_witness :
    cHdr.compression_level = ((0 : Nat) : Int) ∧ (0 : Nat) ≤ 5 ∧
      (BlockState.mk 100 0 0 0 0).runLength = 0 ∧
      readBits [137] (BlockState.mk 100 0 0 0 0).bitPos 3 = some (1, 3) ∧
      readBits [137] 3 (specResidualWidth 0) = some (17, 8) ∧
      decodeSampleStep cHdr [137] (BlockState.mk 100 0 0 0 0) =
        some (setD { BlockState.mk 100 0 0 0 0 with bitPos := 8 }
          (BlockState.mk 100 0 0 0 0).chan
          (specSignMagApply (getD (BlockState.mk 100 0 0 0 0)
            (BlockState.mk 100 0 0 0 0).chan) 17 (specResidualWidth 0)
            (specResidualShift 0 1))) :=
  ⟨rfl, by decide, rfl, by decide, by decide,
    (nwa_residual_update cHdr [137] (BlockState.mk 100 0 0 0 0) 0 rfl
      (by decide) rfl).1 1 3 17 8 (by decide) (by decide) (by decide) (by decide)⟩

theorem setD_chan (st : BlockState) (c v : Nat) : (setD st c v).chan = st.chan := by
  unfold setD
  split <;> rfl

theorem decodeSampleStep_inv (h : NwaHeader) (data : List Nat)
    (st st2 : BlockState) (hstep : decodeSampleStep h data st = some st2) :
    st2.chan = st.chan ∧
    (st2.d0 = st.d0 ∨ st2.d0 = 0 ∨ ∃ b w s, st2.d0 = signMagUpdate st.d0 b w s) ∧
    (st2.d1 = st.d1 ∨ st2.d1 = 0 ∨ ∃ b w s, st2.d1 = signMagUpdate st.d1 b w s) := by
  unfold decodeSampleStep at hstep
  split at hstep
  case isTrue =>
    rw [Option.some.injEq] at hstep
    subst hstep
    exact ⟨rfl, Or.inl rfl, Or.inl rfl⟩
  case isFalse =>
    simp only [Option.bind_eq_bind, Option.bind_eq_some] at hstep
    obtain ⟨⟨ty, p1⟩, -, h2⟩ := hstep
    by_cases h7 : ty = 7
    · rw [if_pos h7] at h2
      simp only [Option.bind_eq_some] at h2
      obtain ⟨⟨flag, p2⟩, -, h3⟩ := h2
      by_cases hf : flag ≠ 0
      · rw [if_pos hf, Option.some.injEq] at h3
        subst h3
        refine ⟨setD_chan _ _ _, ?_, ?_⟩
        · by_cases hc : st.chan = 0
          · exact Or.inr (Or.inl (by simp [setD, hc]))
          · exact Or.inl (by simp [setD, hc])
        · by_cases hc : st.chan = 0
          · exact Or.inl (by simp [setD, hc])
          · exact Or.inr (Or.inl (by simp [setD, hc]))
      · rw [if_neg hf] at h3
        simp only [Option.bind_eq_some] at h3
        obtain ⟨⟨b, p3⟩, -, h4⟩ := h3
        rw [Option.some.injEq] at h4
        subst h4
        set W := (if h.compression_level < 3 then 8 - h.compression_level else 8).toNat
        set S := (if h.compression_level < 3 then 9 + h.compression_level else 9).toNat
        by_cases hc : st.chan = 0
        · exact ⟨setD_chan _ _ _,
            Or.inr (Or.inr ⟨b, W, S, by simp [setD, getD, hc]⟩),
            Or.inl (by simp [setD, hc])⟩
        · exact ⟨setD_chan _ _ _, Or.inl (by simp [setD, hc]),
            Or.inr (Or.inr ⟨b, W, S, by simp [setD, getD, hc]⟩)⟩
    · rw [if_neg h7] at h2
      by_cases hpos : 0 < ty
      · rw [if_pos hpos] at h2
        simp only [Option.bind_eq_some] at h2
        obtain ⟨⟨b, p2⟩, -, h3⟩ := h2
        rw [Option.some.injEq] at h3
        subst h3
        set W := (if 3 ≤ h.compression_level then 3 + h.compression_level
          else 5 - h.compression_level).toNat
        set S := (if 3 ≤ h.compression_level then 1 + (ty : Int)
          else 2 + (ty : Int) + h.compression_level).toNat
        by_cases hc : st.chan = 0
        · exact ⟨setD_chan _ _ _,
            Or.inr (Or.inr ⟨b, W, S, by simp [setD, getD, hc]⟩),
            Or.inl (by simp [setD, hc])⟩
        · exact ⟨setD_chan _ _ _, Or.inl (by simp [setD, hc]),
            Or.inr (Or.inr ⟨b, W, S, by simp [setD, getD, hc]⟩)⟩
      · rw [if_neg hpos] at h2
        split at h2
        · simp only [Option.bind_eq_some] at h2
          obtain ⟨⟨r1, p2⟩, -, h3⟩ := h2
          split at h3
          · simp only [Option.bind_eq_some] at h3
            obtain ⟨⟨r2, p3⟩, -, h4⟩ := h3
            split at h4
            · simp only [Option.bind_eq_some] at h4
              obtain ⟨⟨r3, p4⟩, -, h5⟩ := h4
              rw [Option.some.injEq] at h5
              subst h5
              exact ⟨rfl, Or.inl rfl, Or.inl rfl⟩
            · rw [Option.some.injEq] at h4
              subst h4
              exact ⟨rfl, Or.inl rfl, Or.inl rfl⟩
          · rw [Option.some.injEq] at h3
            subst h3
            exact ⟨rfl, Or.inl rfl, Or.inl rfl⟩
        · rw [Option.some.injEq] at h2
          subst h2
          exact ⟨rfl, Or.inl rfl, Or.inl rfl⟩

/-- C9: the predictor d[channel] is a 16-bit value — every residual
addition or subtraction is reduced modulo 2^16 (wrapping, not saturating
or widening), every reachable predictor state stays below 2^16, and when
bits_per_sample == 8 only the low 8 bits of the predictor are emitted per
sample. -/
theorem nwa_predictor_sixteen_bit (h : NwaHeader) (data : List Nat) :
    (∀ d b w s, signMagUpdate d b w s < 65536 ∧
      ((signMagUpdate d b w s : Int) % 65536 =
        ((d : Int) + (if b / 2 ^ (w - 1) % 2 = 1
            then -((b % 2 ^ (w - 1) * 2 ^ s : Nat) : Int)
            else ((b % 2 ^ (w - 1) * 2 ^ s : Nat) : Int))) % 65536)) ∧
    (∀ st st2, decodeSampleStep h data st = some st2 →
      st.d0 < 65536 → st.d1 < 65536 → st2.d0 < 65536 ∧ st2.d1 < 65536) ∧
    (∀ d, h.bits_per_sample = 8 → sampleBytes h d = [d % 256]) := by
  refine ⟨?_, ?_, ?_⟩
  · intro d b w s
    refine ⟨signMagUpdate_lt d b w s, ?_⟩
    rw [signMagUpdate_eq_spec]
    unfold specSignMagApply
    split_ifs with hb
    · generalize b % 2 ^ (w - 1) * 2 ^ s = x
      omega
    · generalize b % 2 ^ (w - 1) * 2 ^ s = x
      omega
  · intro st st2 hstep h0 h1
    obtain ⟨-, hd0, hd1⟩ := decodeSampleStep_inv h data st st2 hstep
    constructor
    · rcases hd0 with he | he | ⟨b, w, s, he⟩
      · rw [he]; exact h0
      · rw [he]; norm_num
      · rw [he]; exact signMagUpdate_lt _ _ _ _
    · rcases hd1 with he | he | ⟨b, w, s, he⟩
      · rw [he]; exact h1
      · rw [he]; norm_num
      · rw [he]; exact signMagUpdate_lt _ _ _ _
  · intro d h8
    unfold sampleBytes
    rw [if_pos h8]

theorem nwa_predictor_sixteen_bit_witness :
    decodeSampleStep cHdr [0] (BlockState.mk 0 0 0 0 0) =
        some (BlockState.mk 0 0 0 0 3) ∧
      (BlockState.mk 0 0 0 0 0).d0 < 65536 ∧ (BlockState.mk 0 0 0 0 0).d1 < 65536 ∧
      ((BlockState.mk 0 0 0 0 3).d0 < 65536 ∧ (BlockState.mk 0 0 0 0 3).d1 < 65536) ∧
      sampleBytes cHdr 300 = [300 % 256] :=
  ⟨by decide, by decide, by decide,
    (nwa_predictor_sixteen_bit cHdr [0]).2.1 (BlockState.mk 0 0 0 0 0)
      (BlockState.mk 0 0 0 0 3) (by decide) (by decide) (by decide),
    (nwa_predictor_sixteen_bit cHdr [0]).2.2 300 (by decide)⟩

/-- A run-length-enabled header: mono, 8 bits per sample, level 0, one
block of five samples. -/
def rlHdr : NwaHeader :=
  { channel_count := 1, bits_per_sample := 8, sample_rate := 0,
    compression_level := 0, use_run_length := true, block_count := 1,
    uncompressed_size := 5, compressed_size := 1, sample_count := 5,
    block_size := 0, rest_size := 5 }

/-- C4: run-length suppression — while the counter is nonzero each emitted
sample decrements it and outputs the current d[channel] with no bits
consumed; a type-0 code with run-length mode enabled reads 1 bit, then
possibly 2 bits, then (when the 2-bit value is 3) a further 8-bit value as
the run length; with run-length mode disabled type 0 consumes only the
3-bit type code; and the end-to-end scenario emits the updated predictor
value unchanged for 3 additional samples. -/
theorem nwa_run_length_behavior (h : NwaHeader) (data : List Nat)
    (st : BlockState) :
    (∀ k n, st.runLength = k + 1 →
      decodeSampleStep h data st = some { st with runLength := k } ∧
      decodeLoop h data (n + 1) st =
        Option.map (fun rest => sampleBytes h (getD st st.chan) ++ rest)
          (decodeLoop h data n
            { st with
                runLength := k
                chan := if h.channel_count = 2 then st.chan ^^^ 1 else st.chan })) ∧
    (∀ p1 p2, st.runLength = 0 → h.use_run_length = true →
      readBits data st.bitPos 3 = some (0, p1) →
      readBits data p1 1 = some (0, p2) →
      decodeSampleStep h data st = some { st with runLength := 0, bitPos := p2 }) ∧
    (∀ p1 p2 v p3, st.runLength = 0 → h.use_run_length = true →
      readBits data st.bitPos 3 = some (0, p1) →
      readBits data p1 1 = some (1, p2) →
      readBits data p2 2 = some (v, p3) → v ≠ 3 →
      decodeSampleStep h data st = some { st with runLength := v, bitPos := p3 }) ∧
    (∀ p1 p2 p3 r p4, st.runLength = 0 → h.use_run_length = true →
      readBits data st.bitPos 3 = some (0, p1) →
      readBits data p1 1 = some (1, p2) →
      readBits data p2 2 = some (3, p3) →
      readBits data p3 8 = some (r, p4) →
      decodeSampleStep h data st = some { st with runLength := r, bitPos := p4 }) ∧
    (∀ p1, st.runLength = 0 → h.use_run_length = false →
      readBits data st.bitPos 3 = some (0, p1) →
      decodeSampleStep h data st = some { st with bitPos := p1 }) ∧
    decodeLoop rlHdr [9, 248, 0] 5 (BlockState.mk 10 0 0 0 0) =
      some [18, 18, 18, 18, 18] := by
  refine ⟨?_, ?_, ?_, ?_, ?_, by decide⟩
  · intro k n hk
    have hstep : decodeSampleStep h data st = some { st with runLength := k } := by
      unfold decodeSampleStep
      rw [hk, if_pos (Nat.succ_ne_zero k)]
      simp
    refine ⟨hstep, ?_⟩
    show (do
      let st2 ← decodeSampleStep h data st
      let rest ← decodeLoop h data n
        { st2 with chan := if h.channel_count = 2 then st2.chan ^^^ 1 else st2.chan }
      some (sampleBytes h (getD st2 st2.chan) ++ rest)) = _
    rw [hstep]
    simp only [Option.bind_eq_bind, Option.some_bind]
    rcases hres : decodeLoop h data n
        { st with
            runLength := k
            chan := if h.channel_count = 2 then st.chan ^^^ 1 else st.chan }
      with _ | rest
    · rfl
    · rfl
  · intro p1 p2 hrl hurl h3 h1
    simp [decodeSampleStep, hrl, hurl, h3, h1]
  · intro p1 p2 v p3 hrl hurl h3 h1 h2 hv
    simp [decodeSampleStep, hrl, hurl, h3, h1, h2, hv]
  · intro p1 p2 p3 r p4 hrl hurl h3 h1 h2 h8
    simp [decodeSampleStep, hrl, hurl, h3, h1, h2, h8]
  · intro p1 hrl hurl h3
    simp [decodeSampleStep, hrl, hurl, h3]

theorem nwa_run_length_behavior_witness :
    rlHdr.use_run_length = true ∧
      readBits [248, 0] 0 3 = some (0, 3) ∧
      readBits [248, 0] 3 1 = some (1, 4) ∧
      readBits [248, 0] 4 2 = some (3, 6) ∧
      readBits [248, 0] 6 8 = some (3, 14) ∧
      decodeSampleStep rlHdr [248, 0] (BlockState.mk 10 0 0 0 0) =
        some { BlockState.mk 10 0 0 0 0 with runLength := 3, bitPos := 14 } :=
  ⟨rfl, by decide, by decide, by decide, by decide,
    (nwa_run_length_behavior rlHdr [248, 0] (BlockState.mk 10 0 0 0 0)).2.2.2.1
      3 4 6 3 14 rfl rfl (by decide) (by decide) (by decide) (by decide)⟩

theorem xor_toggle (c k : Nat) : (c ^^^ 1) ^^^ k % 2 = c ^^^ (k + 1) % 2 := by
  rcases Nat.mod_two_eq_zero_or_one k with hk | hk
  · have h1 : (k + 1) % 2 = 1 := by omega
    rw [hk, h1, Nat.xor_zero]
  · have h1 : (k + 1) % 2 = 0 := by omega
    have h2 : (1 : Nat) ^^^ 1 = 0 := by decide
    rw [hk, h1, Nat.xor_assoc, h2]

/-- The byte sequence emitted while a pending run of length k is consumed,
starting at channel index c: the two predictors alternate. -/
def runEmit (h : NwaHeader) (st : BlockState) (c k : Nat) : List Nat :=
  List.flatten ((List.range k).map fun j => sampleBytes h (getD st (c ^^^ j % 2)))

theorem runEmit_succ (h : NwaHeader) (st : BlockState) (c k : Nat) :
    runEmit h st c (k + 1) =
      sampleBytes h (getD st c) ++ runEmit h st (c ^^^ 1) k := by
  unfold runEmit
  rw [List.range_succ_eq_map, List.map_cons, List.flatten_cons, List.map_map]
  have hz : c ^^^ 0 % 2 = c := by
    rw [Nat.zero_mod, Nat.xor_zero]
  rw [hz]
  congr 1
  have hfun : ((fun j => sampleBytes h (getD st (c ^^^ j % 2))) ∘ Nat.succ) =
      (fun j => sampleBytes h (getD st ((c ^^^ 1) ^^^ j % 2))) := by
    funext j
    show sampleBytes h (getD st (c ^^^ (j + 1) % 2)) = _
    rw [xor_toggle]
  rw [hfun]

theorem decodeLoop_run_stereo (h : NwaHeader) (data : List Nat)
    (hcc : h.channel_count = 2) :
    ∀ (k fuel : Nat) (st : BlockState), k ≤ st.runLength → k ≤ fuel →
      decodeLoop h data fuel st =
        Option.map (fun rest => runEmit h st st.chan k ++ rest)
          (decodeLoop h data (fuel - k)
            { st with
                runLength := st.runLength - k
                chan := st.chan ^^^ k % 2 }) := by
  intro k
  induction k with
  | zero =>
    intro fuel st hk hf
    obtain ⟨d0, d1, ch, rl, bp⟩ := st
    simp only [Nat.sub_zero, Nat.zero_mod, Nat.xor_zero]
    cases hd : decodeLoop h data fuel (BlockState.mk d0 d1 ch rl bp) <;> rfl
  | succ k ih =>
    intro fuel st hk hf
    obtain ⟨d0, d1, ch, rl, bp⟩ := st
    obtain ⟨f, rfl⟩ : ∃ f, fuel = f + 1 := ⟨fuel - 1, by omega⟩
    have hk2 : k + 1 ≤ rl := hk
    have h0 : rl ≠ 0 := by omega
    have hstep : decodeSampleStep h data (BlockState.mk d0 d1 ch rl bp) =
        some (BlockState.mk d0 d1 ch (rl - 1) bp) := by
      unfold decodeSampleStep
      dsimp only
      rw [if_pos h0]
    show (do
      let st2 ← decodeSampleStep h data (BlockState.mk d0 d1 ch rl bp)
      let rest ← decodeLoop h data f
        { st2 with chan := if h.channel_count = 2 then st2.chan ^^^ 1 else st2.chan }
      some (sampleBytes h (getD st2 st2.chan) ++ rest)) = _
    rw [hstep]
    simp only [Option.bind_eq_bind, Option.some_bind]
    rw [if_pos hcc]
    try dsimp only
    have ihh := ih f (BlockState.mk d0 d1 (ch ^^^ 1) (rl - 1) bp)
      (by show k ≤ rl - 1; omega) (by omega)
    try dsimp only at ihh
    rw [ihh]
    rw [runEmit_succ]
    have hrl2 : rl - 1 - k = rl - (k + 1) := by omega
    have hf2 : f - k = f + 1 - (k + 1) := by omega
    rw [hrl2, hf2, xor_toggle]
    rcases hres : decodeLoop h data (f + 1 - (k + 1))
        (BlockState.mk d0 d1 (ch ^^^ (k + 1) % 2) (rl - (k + 1)) bp)
      with _ | rest
    · rfl
    · show some (sampleBytes h (getD (BlockState.mk d0 d1 ch rl bp) ch) ++
        (runEmit h (BlockState.mk d0 d1 ch rl bp) (ch ^^^ 1) k ++ rest)) =
        some ((sampleBytes h (getD (BlockState.mk d0 d1 ch rl bp) ch) ++
          runEmit h (BlockState.mk d0 d1 ch rl bp) (ch ^^^ 1) k) ++ rest)
      rw [List.append_assoc]

/-- A stereo variant of the minimal header. -/
def sHdr : NwaHeader :=
  { channel_count := 2, bits_per_sample := 8, sample_rate := 22050,
    compression_level := 0, use_run_length := false, block_count := 1,
    uncompressed_size := 2, compressed_size := 1, sample_count := 2,
    block_size := 0, rest_size := 2 }

/-- C7: in a two-channel stream the channel index toggles 0/1 after every
emitted sample, including samples emitted while a run_length counter is
pending — a pending run of length k in stereo emits the two channels'
current predictor values alternately — while in mono the channel index
stays 0 for the whole block and every sample comes from d[0]. -/
theorem nwa_channel_toggle (h : NwaHeader) (data : List Nat) :
    (h.channel_count = 2 → ∀ (k fuel : Nat) (st : BlockState),
      k ≤ st.runLength → k ≤ fuel →
      decodeLoop h data fuel st =
        Option.map (fun rest => runEmit h st st.chan k ++ rest)
          (decodeLoop h data (fuel - k)
            { st with
                runLength := st.runLength - k
                chan := st.chan ^^^ k % 2 })) ∧
    (h.channel_count = 1 → ∀ (n : Nat) (st st2 : BlockState), st.chan = 0 →
      decodeSampleStep h data st = some st2 →
      st2.chan = 0 ∧
      decodeLoop h data (n + 1) st =
        Option.map (fun rest => sampleBytes h st2.d0 ++ rest)
          (decodeLoop h data n st2)) := by
  constructor
  · intro hcc
    exact decodeLoop_run_stereo h data hcc
  · intro hcc n st st2 hch hstep
    have hchan : st2.chan = 0 := by
      rw [(decodeSampleStep_inv h data st st2 hstep).1, hch]
    refine ⟨hchan, ?_⟩
    show (do
      let st3 ← decodeSampleStep h data st
      let rest ← decodeLoop h data n
        { st3 with chan := if h.channel_count = 2 then st3.chan ^^^ 1 else st3.chan }
      some (sampleBytes h (getD st3 st3.chan) ++ rest)) = _
    rw [hstep]
    simp only [Option.bind_eq_bind, Option.some_bind]
    rw [if_neg (by rw [hcc]; norm_num)]
    have heta : ({ st2 with chan := st2.chan } : BlockState) = st2 := rfl
    rw [heta]
    have hg : getD st2 st2.chan = st2.d0 := by
      rw [hchan]
      rfl
    rw [hg]
    cases hres : decodeLoop h data n st2 <;> rfl

theorem nwa_channel_toggle_witness :
    sHdr.channel_count = 2 ∧
      (2 : Nat) ≤ (BlockState.mk 5 7 0 2 0).runLength ∧ (2 : Nat) ≤ 2 ∧
      decodeLoop sHdr [] 2 (BlockState.mk 5 7 0 2 0) =
        Option.map (fun rest =>
            runEmit sHdr (BlockState.mk 5 7 0 2 0) 0 2 ++ rest)
          (decodeLoop sHdr [] 0 (BlockState.mk 5 7 0 0 0)) ∧
      cHdr.channel_count = 1 ∧
      ((BlockState.mk 3 0 0 0 3).chan = 0 ∧
        decodeLoop cHdr [0] 1 (BlockState.mk 3 0 0 0 0) =
          Option.map (fun rest => sampleBytes cHdr (BlockState.mk 3 0 0 0 3).d0 ++ rest)
            (decodeLoop cHdr [0] 0 (BlockState.mk 3 0 0 0 3))) :=
  ⟨rfl, by decide, by decide,
    (nwa_channel_toggle sHdr []).1 rfl 2 2 (BlockState.mk 5 7 0 2 0)
      (by decide) (by decide),
    rfl,
    (nwa_channel_toggle cHdr [0]).2 rfl 0 (BlockState.mk 3 0 0 0 0)
      (BlockState.mk 3 0 0 0 3) rfl (by decide)⟩

theorem wsub_eq_sub (w a b : Nat) (hba : b ≤ a) (ha : a < 2 ^ w) :
    wsub w a b = a - b := by
  unfold wsub
  rw [Nat.mod_eq_of_lt ha, Nat.mod_eq_of_lt (lt_of_le_of_lt hba ha)]
  have h1 : a + (2 ^ w - b) = 2 ^ w + (a - b) := by
    have := Nat.le_of_lt ha
    omega
  rw [h1, Nat.add_mod_left]
  exact Nat.mod_eq_of_lt (by omega)

theorem readRawSample_eq (h : NwaHeader) (buffer : List Nat) (p : Nat)
    (hbps : h.bits_per_sample = 8 ∨ h.bits_per_sample = 16)
    (hle : p + h.bits_per_sample >>> 3 ≤ buffer.length) :
    readRawSample h buffer p =
      some (specRawSample h buffer p, p + h.bits_per_sample >>> 3) := by
  rcases hbps with hb | hb
  · unfold readRawSample specRawSample readU8
    rw [hb] at hle ⊢
    have h1 : (8 : Nat) >>> 3 = 1 := rfl
    rw [h1] at hle ⊢
    rw [if_pos (rfl : (8 : Nat) = 8), if_pos (rfl : (8 : Nat) = 8), if_pos hle]
  · unfold readRawSample specRawSample readU16le
    rw [hb] at hle ⊢
    have h1 : (16 : Nat) >>> 3 = 2 := rfl
    rw [h1] at hle ⊢
    rw [if_neg (by norm_num : ¬ (16 : Nat) = 8),
      if_neg (by norm_num : ¬ (16 : Nat) = 8), if_pos hle]

theorem readInitSamples_one (h : NwaHeader) (buffer : List Nat) (off : Nat)
    (hbps : h.bits_per_sample = 8 ∨ h.bits_per_sample = 16)
    (hle : off + h.bits_per_sample >>> 3 * 1 ≤ buffer.length) :
    readInitSamples h buffer off 1 =
      some ([specRawSample h buffer off], off + h.bits_per_sample >>> 3 * 1) := by
  have hle2 : off + h.bits_per_sample >>> 3 ≤ buffer.length := by omega
  have hr := readRawSample_eq h buffer off hbps hle2
  simp only [readInitSamples, hr, Option.bind_eq_bind, Option.some_bind,
    Option.some.injEq]
  rw [Nat.mul_one]

theorem readInitSamples_two (h : NwaHeader) (buffer : List Nat) (off : Nat)
    (hbps : h.bits_per_sample = 8 ∨ h.bits_per_sample = 16)
    (hle : off + h.bits_per_sample >>> 3 * 2 ≤ buffer.length) :
    readInitSamples h buffer off 2 =
      some ([specRawSample h buffer off,
             specRawSample h buffer (off + h.bits_per_sample >>> 3)],
        off + h.bits_per_sample >>> 3 * 2) := by
  have hle1 : off + h.bits_per_sample >>> 3 ≤ buffer.length := by omega
  have hle2 : (off + h.bits_per_sample >>> 3) + h.bits_per_sample >>> 3 ≤
      buffer.length := by omega
  have hr1 := readRawSample_eq h buffer off hbps hle1
  have hr2 := readRawSample_eq h buffer (off + h.bits_per_sample >>> 3) hbps hle2
  simp only [readInitSamples, hr1, hr2, Option.bind_eq_bind, Option.some_bind,
    Option.some.injEq]
  have hs : off + h.bits_per_sample >>> 3 + h.bits_per_sample >>> 3 =
      off + h.bits_per_sample >>> 3 * 2 := by ring
  rw [hs]

/-- C6: each block is decoded independently of prior blocks — the
compressed span starts at offsets[i], with length derived from the next
offset (or buffer end for the last block); the per-channel predictors are
seeded from the span's head by one raw sample per channel; the remaining
bytes feed the LSB-first bitstream; and the channel index and run-length
counter are freshly zeroed at every block. -/
theorem nwa_block_independence (h : NwaHeader) (buffer offsets : List Nat)
    (i : Nat) (hbps : h.bits_per_sample = 8 ∨ h.bits_per_sample = 16) :
    (∀ off nxt, offsets.get? i = some off → offsets.get? (i + 1) = some nxt →
      i ≠ offsets.length - 1 →
      off + h.bits_per_sample >>> 3 * h.channel_count ≤ nxt →
      nxt ≤ buffer.length → nxt < 2 ^ 32 →
      (h.channel_count = 1 ∨ h.channel_count = 2) →
      decode_block h i buffer offsets =
        decodeLoop h
          ((buffer.drop (off + h.bits_per_sample >>> 3 * h.channel_count)).take
            (nxt - off - h.bits_per_sample >>> 3 * h.channel_count))
          ((if i ≠ h.block_count - 1
              then h.block_size * (h.bits_per_sample >>> 3)
              else h.rest_size * (h.bits_per_sample >>> 3)) /
            (h.bits_per_sample >>> 3))
          (BlockState.mk (specRawSample h buffer off)
            (if h.channel_count = 2
              then specRawSample h buffer (off + h.bits_per_sample >>> 3) else 0)
            0 0 0)) ∧
    (∀ off, offsets.get? i = some off → i = offsets.length - 1 →
      off + h.bits_per_sample >>> 3 * h.channel_count ≤ buffer.length →
      buffer.length < 2 ^ 64 →
      (h.channel_count = 1 ∨ h.channel_count = 2) →
      decode_block h i buffer offsets =
        decodeLoop h
          ((buffer.drop (off + h.bits_per_sample >>> 3 * h.channel_count)).take
            (buffer.length - off - h.bits_per_sample >>> 3 * h.channel_count))
          ((if i ≠ h.block_count - 1
              then h.block_size * (h.bits_per_sample >>> 3)
              else h.rest_size * (h.bits_per_sample >>> 3)) /
            (h.bits_per_sample >>> 3))
          (BlockState.mk (specRawSample h buffer off)
            (if h.channel_count = 2
              then specRawSample h buffer (off + h.bits_per_sample >>> 3) else 0)
            0 0 0)) := by
  constructor
  · intro off nxt hoff hnxt hlast hin hbuf h32 hcc
    unfold decode_block
    rw [hoff]
    simp only [Option.bind_eq_bind, Option.some_bind]
    unfold blockInputSize
    rw [if_pos hlast, hnxt]
    simp only [Option.bind_eq_bind, Option.some_bind]
    rw [wsub_eq_sub 32 nxt off (by omega) h32]
    unfold blockBody
    rw [if_pos (by omega : off ≤ buffer.length)]
    rcases hcc with h1 | h2
    · rw [h1] at hin ⊢
      rw [readInitSamples_one h buffer off hbps (by omega)]
      simp only [Option.bind_eq_bind, Option.some_bind]
      rw [wsub_eq_sub 64 _ _ (by omega) (by omega), if_pos (by omega),
        if_neg (by norm_num : ¬ (1 : Nat) = 2)]
      rfl
    · rw [h2] at hin ⊢
      rw [readInitSamples_two h buffer off hbps (by omega)]
      simp only [Option.bind_eq_bind, Option.some_bind]
      rw [wsub_eq_sub 64 _ _ (by omega) (by omega), if_pos (by omega)]
      simp only [if_true]
      rfl
  · intro off hoff hlast hin h64 hcc
    unfold decode_block
    rw [hoff]
    simp only [Option.bind_eq_bind, Option.some_bind]
    unfold blockInputSize
    rw [if_neg (by simp [hlast])]
    simp only [Option.bind_eq_bind, Option.some_bind]
    rw [wsub_eq_sub 64 buffer.length off (by omega) h64]
    unfold blockBody
    rw [if_pos (by omega : off ≤ buffer.length)]
    rcases hcc with h1 | h2
    · rw [h1] at hin ⊢
      rw [readInitSamples_one h buffer off hbps (by omega)]
      simp only [Option.bind_eq_bind, Option.some_bind]
      rw [wsub_eq_sub 64 _ _ (by omega) (by omega), if_pos (by omega),
        if_neg (by norm_num : ¬ (1 : Nat) = 2)]
      rfl
    · rw [h2] at hin ⊢
      rw [readInitSamples_two h buffer off hbps (by omega)]
      simp only [Option.bind_eq_bind, Option.some_bind]
      rw [wsub_eq_sub 64 _ _ (by omega) (by omega), if_pos (by omega)]
      simp only [if_true]
      rfl

theorem nwa_block_independence_witness :
    ([8] : List Nat).get? 0 = some 8 ∧ (0 : Nat) = ([8] : List Nat).length - 1 ∧
      8 + cHdr.bits_per_sample >>> 3 * cHdr.channel_count ≤ cBuf.length ∧
      cBuf.length < 2 ^ 64 ∧
      (cHdr.channel_count = 1 ∨ cHdr.channel_count = 2) ∧
      decode_block cHdr 0 cBuf [8] =
        decodeLoop cHdr [0] 1 (BlockState.mk 42 0 0 0 0) :=
  ⟨by decide, by decide, by decide, by decide, Or.inl rfl,
    (nwa_block_independence cHdr cBuf [8] 0 (Or.inl rfl)).2 8 (by decide)
      (by decide) (by decide) (by decide) (Or.inl rfl)⟩

end ArcUnpacker
